import Mathlib

/-!
# Verification of the chessmata WebSocket core (`cli/chessmata/websocket.py`)

A shallow embedding of the wire-level WebSocket client in
`cli/chessmata/websocket.py`, together with theorems checking the
natural-language specification against it.

Bytes are modelled as natural numbers (every value produced by the code is
`< 256`; arithmetic is on `Nat` with explicit truncation where the source
truncates).  The byte stream is a `List Nat`.  Strings on the handshake path
are modelled as `List Char` (Python `str` after `bytes.decode`).
-/

namespace Chessmata

/-- Masking of a payload against a 4-byte key, starting at index `i`:
each byte is XORed with `mask[i % 4]`, mirroring
`byte ^ mask[i % 4]` in `_send_frame` and in the unmasking branch of
`_receive_loop`. -/
def maskWith (mask : List Nat) : Nat → List Nat → List Nat
  | _, [] => []
  | i, b :: bs => (b ^^^ mask.getD (i % 4) 0) :: maskWith mask (i + 1) bs

/-- `maskPayload mask data` is the masked (or unmasked) payload, indices
starting at 0, as in `for i, byte in enumerate(data): byte ^ mask[i % 4]`. -/
def maskPayload (mask data : List Nat) : List Nat :=
  maskWith mask 0 data

/-- Big-endian byte encoding of `n` on `k` bytes, mirroring Python's
`n.to_bytes(k, 'big')` (truncating to the low `8*k` bits; Python raises
`OverflowError` instead of truncating, so callers must keep `n < 2^(8*k)`). -/
def toBytesBE : Nat → Nat → List Nat
  | 0, _ => []
  | k + 1, n => toBytesBE k (n / 256) ++ [n % 256]

/-- Big-endian byte decoding, mirroring Python's `int.from_bytes(l, 'big')`. -/
def fromBytesBE (l : List Nat) : Nat :=
  l.foldl (fun acc b => acc * 256 + b) 0

/-- `SimpleWebSocket._send_frame(data, opcode)`: the exact bytes written to
the socket for one outgoing frame, with the 4-byte random mask
(`os.urandom(4)`) made an explicit argument. -/
def send_frame (data : List Nat) (opcode : Nat) (mask : List Nat) : List Nat :=
  let length := data.length
  let lenBytes :=
    if length ≤ 125 then [0x80 ||| length]
    else if length ≤ 65535 then (0x80 ||| 126) :: toBytesBE 2 length
    else (0x80 ||| 127) :: toBytesBE 8 length
  (0x80 ||| opcode) :: (lenBytes ++ (mask ++ maskPayload mask data))

/-- A generic RFC 6455 frame as laid out on the wire (spec §6 "Frame wire
format"): first byte `b1` (FIN/RSV/opcode), length field, optional 4-byte
mask key followed by the masked payload, or the verbatim payload when the
mask bit is clear.  `send_frame data opcode mask` equals
`frameBytes (0x80 ||| opcode) (some mask) data`; server frames are
`frameBytes b1 none p`. -/
def frameBytes (b1 : Nat) (mo : Option (List Nat)) (p : List Nat) : List Nat :=
  let length := p.length
  let mb := match mo with | some _ => 0x80 | none => 0
  let lenBytes :=
    if length ≤ 125 then [mb ||| length]
    else if length ≤ 65535 then (mb ||| 126) :: toBytesBE 2 length
    else (mb ||| 127) :: toBytesBE 8 length
  let body := match mo with | some m => m ++ maskPayload m p | none => p
  b1 :: (lenBytes ++ body)

/-- A frame as produced by the parsing part of `_receive_loop`: the opcode
(`first_byte & 0x0F` — the loop never extracts the FIN bit), the mask flag,
and the (unmasked) payload bytes. -/
structure DecodedFrame where
  opcode : Nat
  masked : Bool
  payload : List Nat
  deriving Repr, DecidableEq

/-- Tail of one parse iteration of `_receive_loop`, after the length field
has been read: add 4 header bytes for the mask key if masked, check that the
whole frame is present (`len(buffer) < total_len` → need more data, modelled
as `none`), then slice out the payload, unmasking it against
`buffer[header_len-4:header_len]` when masked. -/
def decodeRest (buffer : List Nat) (opcode : Nat) (masked : Bool)
    (payload_len base_header : Nat) : Option (DecodedFrame × Nat) :=
  let header_len := base_header + if masked then 4 else 0
  let total_len := header_len + payload_len
  if buffer.length < total_len then none
  else
    let raw := (buffer.drop header_len).take payload_len
    let payload :=
      if masked then maskPayload ((buffer.drop (header_len - 4)).take 4) raw
      else raw
    some (⟨opcode, masked, payload⟩, total_len)

/-- One parse attempt of `_receive_loop` on the buffer (lines 169–207 of
`websocket.py`): `none` models every `break` for insufficient data (fewer
than 2 header bytes, a truncated extended length, or a truncated payload) —
in the source those breaks leave the buffer untouched, i.e. consume zero
bytes; `some (frame, total_len)` models a completed parse that consumes
exactly `total_len` bytes. -/
def decodeFrame (buffer : List Nat) : Option (DecodedFrame × Nat) :=
  if buffer.length < 2 then none
  else
    let first_byte := buffer.getD 0 0
    let opcode := first_byte &&& 0x0F
    let second_byte := buffer.getD 1 0
    let masked : Bool := second_byte &&& 0x80 != 0
    let payload_len := second_byte &&& 0x7F
    if payload_len = 126 then
      if buffer.length < 4 then none
      else decodeRest buffer opcode masked (fromBytesBE ((buffer.drop 2).take 2)) 4
    else if payload_len = 127 then
      if buffer.length < 10 then none
      else decodeRest buffer opcode masked (fromBytesBE ((buffer.drop 2).take 8)) 10
    else decodeRest buffer opcode masked payload_len 2

/-- Observable state of `_receive_loop`: the `self._connected` flag, the
local `buffer` of not-yet-parsed bytes, the payloads surfaced to the
`on_message` callback (in order; the source passes `payload.decode('utf-8')`
— we record the payload bytes), and the `(opcode, payload)` pairs handed to
`_send_frame` by the loop (its pong replies). -/
structure LoopState where
  connected : Bool
  buffer : List Nat
  messages : List (List Nat)
  sent : List (Nat × List Nat)
  deriving Repr, DecidableEq

/-- The inner `while len(buffer) >= 2` loop of `_receive_loop` (lines
169–220), with explicit fuel for structural recursion: each iteration parses
one frame, drops its bytes from the buffer (`buffer = buffer[total_len:]`),
then dispatches on the opcode — `0x1` invokes the message callback, `0x8`
clears `self._connected` and breaks out (leaving any remaining buffered
bytes unprocessed), `0x9` replies with a pong via `_send_frame(payload,
0xA)`, and every other opcode is ignored.  A successful parse consumes at
least 2 bytes, so fuel `st.buffer.length` is never exhausted before the
loop's own exit conditions fire (`processBufferFuel_eq_of_le`). -/
def processBufferFuel : Nat → LoopState → LoopState
  | 0, st => st
  | fuel + 1, st =>
    if st.buffer.length < 2 then st
    else
      match decodeFrame st.buffer with
      | none => st
      | some (fr, total_len) =>
        let rest := st.buffer.drop total_len
        if fr.opcode = 0x1 then
          processBufferFuel fuel
            { st with buffer := rest, messages := st.messages ++ [fr.payload] }
        else if fr.opcode = 0x8 then
          { st with buffer := rest, connected := false }
        else if fr.opcode = 0x9 then
          processBufferFuel fuel
            { st with buffer := rest, sent := st.sent ++ [(0xA, fr.payload)] }
        else
          processBufferFuel fuel { st with buffer := rest }

/-- Run the inner frame-parsing loop of `_receive_loop` to completion on the
current buffer. -/
def processBuffer (st : LoopState) : LoopState :=
  processBufferFuel st.buffer.length st

/-- One iteration of the outer `while not self._stop_event.is_set() and
self._connected` loop of `_receive_loop`, for a `recv` that returns `chunk`:
when the connection is no longer flagged connected the loop body does not
run at all; an empty chunk means the peer closed the stream (`break`, then
`self._connected = False`); otherwise the chunk is appended to the buffer
and the inner parsing loop runs. -/
def loopStep (st : LoopState) (chunk : List Nat) : LoopState :=
  if !st.connected then st
  else if chunk.isEmpty then { st with connected := false }
  else processBuffer { st with buffer := st.buffer ++ chunk }

/-- Contiguous-subsequence test, mirroring Python's `needle in haystack` on
`bytes`/`str`. -/
def containsSeq {α : Type} [DecidableEq α] (needle : List α) : List α → Bool
  | [] => needle.isEmpty
  | b :: rest => ((b :: rest).take needle.length = needle : Bool) || containsSeq needle rest

/-- The handshake-response read loop of `connect()` (lines 78–83): keep
appending `recv` chunks to `response` until it contains `\r\n\r\n`
(bytes `13 10 13 10`); an empty chunk (closed stream) raises
`WebSocketError`, modelled as `none`, as is running out of supplied chunks
(the source would keep blocking on `recv`). -/
def readHandshakeResponse (response : List Nat) : List (List Nat) → Option (List Nat)
  | [] => if containsSeq [13, 10, 13, 10] response then some response else none
  | chunk :: rest =>
    if containsSeq [13, 10, 13, 10] response then some response
    else if chunk.isEmpty then none
    else readHandshakeResponse (response ++ chunk) rest

/-- Outcome of the status check in `connect()`. -/
inductive ConnectResult where
  /-- The check passed and `self._connected` was set to `True`. -/
  | ok : ConnectResult
  /-- `WebSocketError("WebSocket handshake failed: " + response_str[:200])`
  was raised; carries `response_str[:200]`. -/
  | handshakeFailed : List Char → ConnectResult
  deriving Repr, DecidableEq

/-- The status check of `connect()` (lines 85–91) on the decoded response
string: `if '101' not in response_str: raise WebSocketError(...)` — a plain
substring search over the whole response, not a status-line inspection.
Returns the outcome together with the value of the `self._connected` flag
(set to `True` only after the check passes; it was `False` before). -/
def connectCheck (response_str : List Char) : ConnectResult × Bool :=
  if containsSeq ['1', '0', '1'] response_str then (ConnectResult.ok, true)
  else (ConnectResult.handshakeFailed (response_str.take 200), false)

/-- The initial value of the local `buffer` variable of `_receive_loop`
(line 156: `buffer = b''`): the loop starts from an empty buffer, receiving
nothing from `connect()`. -/
def receiveLoopInitBuffer : List Nat := []

/-- Modelled from the spec: "any bytes received after `\r\n\r\n` in the same
read belong to the frame stream and must be handed to the Connection's
receive buffer" (spec §4.1) — the bytes of the handshake response that
follow the first `\r\n\r\n` header terminator.  No function of the source
computes this; it exists to state what the spec requires the receive loop to
start from. -/
def bytesAfterHeaderTerminator : List Nat → List Nat
  | 13 :: 10 :: 13 :: 10 :: rest => rest
  | _ :: rest => bytesAfterHeaderTerminator rest
  | [] => []

/-- ASCII text as a byte list (all characters of the strings involved are
ASCII, so the code points are the UTF-8 bytes). -/
def asciiBytes (s : String) : List Nat :=
  s.toList.map Char.toNat

/-! ## Helper lemmas about the codec -/

@[simp] theorem length_maskWith (mask : List Nat) (i : Nat) (bs : List Nat) :
    (maskWith mask i bs).length = bs.length := by
  induction bs generalizing i with
  | nil => rfl
  | cons b bs ih => simp [maskWith, ih]

theorem maskWith_maskWith (mask : List Nat) (i : Nat) (bs : List Nat) :
    maskWith mask i (maskWith mask i bs) = bs := by
  induction bs generalizing i with
  | nil => rfl
  | cons b bs ih => simp [maskWith, ih, Nat.xor_assoc]

@[simp] theorem length_maskPayload (mask data : List Nat) :
    (maskPayload mask data).length = data.length :=
  length_maskWith mask 0 data

theorem maskPayload_maskPayload (mask data : List Nat) :
    maskPayload mask (maskPayload mask data) = data :=
  maskWith_maskWith mask 0 data

@[simp] theorem length_toBytesBE (k n : Nat) : (toBytesBE k n).length = k := by
  induction k generalizing n with
  | zero => rfl
  | succ k ih => simp [toBytesBE, ih]

theorem fromBytesBE_append_singleton (l : List Nat) (x : Nat) :
    fromBytesBE (l ++ [x]) = fromBytesBE l * 256 + x := by
  simp [fromBytesBE, List.foldl_append]

theorem fromBytesBE_toBytesBE (k n : Nat) (h : n < 2 ^ (8 * k)) :
    fromBytesBE (toBytesBE k n) = n := by
  induction k generalizing n with
  | zero =>
    simp only [toBytesBE, fromBytesBE, List.foldl_nil]
    omega
  | succ k ih =>
    have hpow : 2 ^ (8 * (k + 1)) = 2 ^ (8 * k) * 256 := by
      rw [Nat.mul_succ, pow_add]
      norm_num
    have h2 : n / 256 < 2 ^ (8 * k) := by
      rw [Nat.div_lt_iff_lt_mul (by norm_num : 0 < 256)]
      omega
    rw [toBytesBE, fromBytesBE_append_singleton, ih _ h2]
    omega

theorem and127_of_lt (l : Nat) (h : l < 126) : l &&& 127 = l := by
  revert l; decide

theorem and128_of_lt (l : Nat) (h : l < 126) : l &&& 128 = 0 := by
  revert l; decide

theorem or128_and127 (l : Nat) (h : l < 126) : (128 ||| l) &&& 127 = l := by
  revert l; decide

theorem or128_and128 (l : Nat) (h : l < 126) : (128 ||| l) &&& 128 = 128 := by
  revert l; decide

theorem or128_and15 (o : Nat) (h : o < 16) : (128 ||| o) &&& 15 = o := by
  revert o; decide

/-- What `decodeRest` returns on a masked frame whose header (`pre`),
4-byte mask key, masked payload and trailing bytes are laid out explicitly. -/
theorem decodeRest_masked (pre m mp t : List Nat) (opcode base L : Nat)
    (hpre : pre.length = base) (hm : m.length = 4) (hmp : mp.length = L) :
    decodeRest (pre ++ (m ++ (mp ++ t))) opcode true L base =
      some (⟨opcode, true, maskPayload m mp⟩, base + 4 + L) := by
  have hdropBase : (pre ++ (m ++ (mp ++ t))).drop base = m ++ (mp ++ t) :=
    List.drop_left' hpre
  have hdropHdr : (pre ++ (m ++ (mp ++ t))).drop (base + 4) = mp ++ t := by
    have : ((pre ++ m) ++ (mp ++ t)).drop (base + 4) = mp ++ t :=
      List.drop_left' (by simp [hpre, hm])
    simpa [List.append_assoc] using this
  simp only [decodeRest, if_true]
  rw [if_neg (by simp only [List.length_append, hpre, hm, hmp]; omega)]
  simp only [Nat.add_sub_cancel, hdropBase, hdropHdr]
  rw [List.take_left' hm, List.take_left' hmp]

/-- What `decodeRest` returns on an unmasked frame whose header (`pre`),
payload and trailing bytes are laid out explicitly. -/
theorem decodeRest_unmasked (pre p t : List Nat) (opcode base L : Nat)
    (hpre : pre.length = base) (hp : p.length = L) :
    decodeRest (pre ++ (p ++ t)) opcode false L base =
      some (⟨opcode, false, p⟩, base + L) := by
  have hdropBase : (pre ++ (p ++ t)).drop base = p ++ t :=
    List.drop_left' hpre
  simp only [decodeRest, Bool.false_eq_true, if_false]
  rw [if_neg (by simp only [List.length_append, hpre, hp]; omega)]
  simp only [Nat.add_zero, hdropBase]
  rw [List.take_left' hp]

/-- Header analysis of `decodeFrame` when the 7-bit length field is neither
126 nor 127: the parse continues with base header length 2. -/
theorem decodeFrame_cons_small (b1 b2 : Nat) (rest : List Nat)
    (h126 : b2 &&& 127 ≠ 126) (h127 : b2 &&& 127 ≠ 127) :
    decodeFrame (b1 :: b2 :: rest) =
      decodeRest (b1 :: b2 :: rest) (b1 &&& 15) (b2 &&& 128 != 0) (b2 &&& 127) 2 := by
  simp only [decodeFrame, List.length_cons, List.getD_cons_zero, List.getD_cons_succ]
  rw [if_neg (by omega), if_neg h126, if_neg h127]

/-- Header analysis of `decodeFrame` when the 7-bit length field is 126:
two extended-length bytes are read and the base header length is 4. -/
theorem decodeFrame_cons_ext2 (b1 b2 : Nat) (rest : List Nat)
    (h126 : b2 &&& 127 = 126) (hlen : 2 ≤ rest.length) :
    decodeFrame (b1 :: b2 :: rest) =
      decodeRest (b1 :: b2 :: rest) (b1 &&& 15) (b2 &&& 128 != 0)
        (fromBytesBE (rest.take 2)) 4 := by
  have hdrop : (b1 :: b2 :: rest).drop 2 = rest := rfl
  simp only [decodeFrame, List.length_cons, List.getD_cons_zero, List.getD_cons_succ, hdrop]
  rw [if_neg (by omega), if_pos h126, if_neg (by omega)]

/-- Header analysis of `decodeFrame` when the 7-bit length field is 127:
eight extended-length bytes are read and the base header length is 10. -/
theorem decodeFrame_cons_ext8 (b1 b2 : Nat) (rest : List Nat)
    (h127 : b2 &&& 127 = 127) (hlen : 8 ≤ rest.length) :
    decodeFrame (b1 :: b2 :: rest) =
      decodeRest (b1 :: b2 :: rest) (b1 &&& 15) (b2 &&& 128 != 0)
        (fromBytesBE (rest.take 8)) 10 := by
  have hdrop : (b1 :: b2 :: rest).drop 2 = rest := rfl
  simp only [decodeFrame, List.length_cons, List.getD_cons_zero, List.getD_cons_succ, hdrop]
  rw [if_neg (by omega), if_neg (by omega), if_pos h127, if_neg (by omega)]

theorem bne_zero_zero : ((0 : Nat) != 0) = false := rfl

/-- Decoding a well-formed *unmasked* frame (as a server sends) followed by
arbitrary trailing bytes: the parse succeeds, returns the payload verbatim,
and consumes exactly the frame's length. -/
theorem decodeFrame_frameBytes_none (b1 : Nat) (p t : List Nat)
    (hp : p.length < 2 ^ 64) :
    decodeFrame (frameBytes b1 none p ++ t) =
      some (⟨b1 &&& 15, false, p⟩, (frameBytes b1 none p).length) := by
  by_cases hL : p.length ≤ 125
  · have e1 : frameBytes b1 none p = b1 :: p.length :: p := by
      simp [frameBytes, hL]
    rw [e1]
    simp only [List.cons_append, List.length_cons]
    rw [decodeFrame_cons_small b1 p.length (p ++ t)
        (by rw [and127_of_lt _ (by omega)]; omega)
        (by rw [and127_of_lt _ (by omega)]; omega)]
    rw [and127_of_lt _ (by omega), and128_of_lt _ (by omega), bne_zero_zero]
    have h := decodeRest_unmasked [b1, p.length] p t (b1 &&& 15) 2 p.length (by simp) rfl
    simp only [List.cons_append, List.nil_append] at h
    rw [h]
    simp [Nat.add_comm]
    omega
  · by_cases hL2 : p.length ≤ 65535
    · have e1 : frameBytes b1 none p = b1 :: 126 :: (toBytesBE 2 p.length ++ p) := by
        simp [frameBytes, hL, hL2]
      rw [e1]
      simp only [List.cons_append, List.append_assoc]
      rw [decodeFrame_cons_ext2 b1 126 (toBytesBE 2 p.length ++ (p ++ t))
          (by decide) (by simp)]
      rw [List.take_left' (length_toBytesBE 2 p.length),
        fromBytesBE_toBytesBE 2 p.length (by norm_num; omega)]
      have hb : ((126 : Nat) &&& 128 != 0) = false := by decide
      rw [hb]
      have h := decodeRest_unmasked (b1 :: 126 :: toBytesBE 2 p.length) p t
        (b1 &&& 15) 4 p.length (by simp) rfl
      simp only [List.cons_append, List.append_assoc] at h
      rw [h]
      simp [Nat.add_comm]
      omega
    · have e1 : frameBytes b1 none p = b1 :: 127 :: (toBytesBE 8 p.length ++ p) := by
        simp [frameBytes, hL, hL2]
      rw [e1]
      simp only [List.cons_append, List.append_assoc]
      rw [decodeFrame_cons_ext8 b1 127 (toBytesBE 8 p.length ++ (p ++ t))
          (by decide) (by simp)]
      rw [List.take_left' (length_toBytesBE 8 p.length),
        fromBytesBE_toBytesBE 8 p.length (by norm_num at hp ⊢; omega)]
      have hb : ((127 : Nat) &&& 128 != 0) = false := by decide
      rw [hb]
      have h := decodeRest_unmasked (b1 :: 127 :: toBytesBE 8 p.length) p t
        (b1 &&& 15) 10 p.length (by simp) rfl
      simp only [List.cons_append, List.append_assoc] at h
      rw [h]
      simp [Nat.add_comm]
      omega

/-- Decoding a well-formed *masked* frame followed by arbitrary trailing
bytes: the mask key is read back out of the buffer and the payload is
unmasked, so the parse returns the original payload and consumes exactly the
frame's length. -/
theorem decodeFrame_frameBytes_some (b1 : Nat) (m p t : List Nat)
    (hm : m.length = 4) (hp : p.length < 2 ^ 64) :
    decodeFrame (frameBytes b1 (some m) p ++ t) =
      some (⟨b1 &&& 15, true, p⟩, (frameBytes b1 (some m) p).length) := by
  by_cases hL : p.length ≤ 125
  · have e1 : frameBytes b1 (some m) p =
        b1 :: (128 ||| p.length) :: (m ++ maskPayload m p) := by
      simp [frameBytes, hL]
    rw [e1]
    simp only [List.cons_append, List.append_assoc]
    rw [decodeFrame_cons_small b1 (128 ||| p.length) (m ++ (maskPayload m p ++ t))
        (by rw [or128_and127 _ (by omega)]; omega)
        (by rw [or128_and127 _ (by omega)]; omega)]
    rw [or128_and127 _ (by omega), or128_and128 _ (by omega)]
    have hb : ((128 : Nat) != 0) = true := by decide
    rw [hb]
    have h := decodeRest_masked [b1, 128 ||| p.length] m (maskPayload m p) t
      (b1 &&& 15) 2 p.length (by simp) hm (by simp)
    simp only [List.cons_append, List.nil_append] at h
    rw [h, maskPayload_maskPayload]
    simp [e1, hm, Nat.add_comm]
    omega
  · by_cases hL2 : p.length ≤ 65535
    · have e1 : frameBytes b1 (some m) p =
          b1 :: 254 :: (toBytesBE 2 p.length ++ (m ++ maskPayload m p)) := by
        simp [frameBytes, hL, hL2]
      rw [e1]
      simp only [List.cons_append, List.append_assoc]
      rw [decodeFrame_cons_ext2 b1 254 (toBytesBE 2 p.length ++ (m ++ (maskPayload m p ++ t)))
          (by decide) (by simp)]
      rw [List.take_left' (length_toBytesBE 2 p.length),
        fromBytesBE_toBytesBE 2 p.length (by norm_num; omega)]
      have hb : ((254 : Nat) &&& 128 != 0) = true := by decide
      rw [hb]
      have h := decodeRest_masked (b1 :: 254 :: toBytesBE 2 p.length) m
        (maskPayload m p) t (b1 &&& 15) 4 p.length (by simp) hm (by simp)
      simp only [List.cons_append, List.append_assoc] at h
      rw [h, maskPayload_maskPayload]
      simp [e1, hm, Nat.add_comm]
      omega
    · have e1 : frameBytes b1 (some m) p =
          b1 :: 255 :: (toBytesBE 8 p.length ++ (m ++ maskPayload m p)) := by
        simp [frameBytes, hL, hL2]
      rw [e1]
      simp only [List.cons_append, List.append_assoc]
      rw [decodeFrame_cons_ext8 b1 255 (toBytesBE 8 p.length ++ (m ++ (maskPayload m p ++ t)))
          (by decide) (by simp)]
      rw [List.take_left' (length_toBytesBE 8 p.length),
        fromBytesBE_toBytesBE 8 p.length (by norm_num at hp ⊢; omega)]
      have hb : ((255 : Nat) &&& 128 != 0) = true := by decide
      rw [hb]
      have h := decodeRest_masked (b1 :: 255 :: toBytesBE 8 p.length) m
        (maskPayload m p) t (b1 &&& 15) 10 p.length (by simp) hm (by simp)
      simp only [List.cons_append, List.append_assoc] at h
      rw [h, maskPayload_maskPayload]
      simp [e1, hm, Nat.add_comm]
      omega

/-- The client encoder is the generic wire format with the mask bit forced:
`_send_frame` always masks. -/
theorem send_frame_eq_frameBytes (data : List Nat) (opcode : Nat) (mask : List Nat) :
    send_frame data opcode mask = frameBytes (128 ||| opcode) (some mask) data := rfl

theorem getD_take_of_lt (l : List Nat) (k i d : Nat) (h : i < k) :
    (l.take k).getD i d = l.getD i d := by
  simp [List.getD, List.getElem?_take, h]

/-- If `decodeRest` succeeds, the consumed count is the computed total frame
length and it fits in the buffer. -/
theorem decodeRest_eq_some (buffer : List Nat) (o : Nat) (msk : Bool)
    (plen base c : Nat) (fr : DecodedFrame)
    (h : decodeRest buffer o msk plen base = some (fr, c)) :
    c = base + (if msk then 4 else 0) + plen ∧ c ≤ buffer.length := by
  simp only [decodeRest] at h
  by_cases hlt : buffer.length < base + (if msk then 4 else 0) + plen
  · rw [if_pos hlt] at h
    exact absurd h (by simp)
  · rw [if_neg hlt] at h
    simp only [Option.some.injEq, Prod.mk.injEq] at h
    omega

/-- `decodeRest` on a too-short prefix of the buffer reports `NeedMoreData`. -/
theorem decodeRest_take_none (B : List Nat) (o : Nat) (msk : Bool)
    (plen base k : Nat) (hk : k ≤ B.length)
    (hlt : k < base + (if msk then 4 else 0) + plen) :
    decodeRest (B.take k) o msk plen base = none := by
  simp only [decodeRest]
  rw [if_pos]
  simp only [List.length_take]
  omega

/-- A successful parse consumes at least the 2 header bytes and never more
than the buffer holds. -/
theorem decodeFrame_consumed (B : List Nat) (fr : DecodedFrame) (c : Nat)
    (h : decodeFrame B = some (fr, c)) : 2 ≤ c ∧ c ≤ B.length := by
  simp only [decodeFrame] at h
  split at h
  · exact absurd h (by simp)
  · split at h
    · split at h
      · exact absurd h (by simp)
      · have := decodeRest_eq_some _ _ _ _ _ _ _ h
        split at this <;> omega
    · split at h
      · split at h
        · exact absurd h (by simp)
        · have := decodeRest_eq_some _ _ _ _ _ _ _ h
          split at this <;> omega
      · have := decodeRest_eq_some _ _ _ _ _ _ _ h
        split at this <;> omega

/-- Prefix safety of the parse step: whenever a buffer parses to a frame
consuming `c` bytes, every strict prefix of those `c` bytes makes the parse
report `NeedMoreData` (and hence, in the source, leave the buffer
untouched). -/
theorem decodeFrame_take_none (B : List Nat) (fr : DecodedFrame) (c k : Nat)
    (h : decodeFrame B = some (fr, c)) (hk : k < c) :
    decodeFrame (B.take k) = none := by
  have hcb := decodeFrame_consumed B fr c h
  by_cases hk2 : k < 2
  · rw [decodeFrame, if_pos]
    simp only [List.length_take]
    omega
  · have hB2 : ¬B.length < 2 := by omega
    simp only [decodeFrame, if_neg hB2] at h
    rw [decodeFrame]
    rw [if_neg (by simp only [List.length_take]; omega)]
    rw [getD_take_of_lt B k 0 0 (by omega), getD_take_of_lt B k 1 0 (by omega)]
    by_cases h126 : B.getD 1 0 &&& 127 = 126
    · rw [if_pos h126] at h ⊢
      have hB4 : ¬B.length < 4 := by
        intro hc
        rw [if_pos hc] at h
        exact absurd h (by simp)
      rw [if_neg hB4] at h
      obtain ⟨hc, hcle⟩ := decodeRest_eq_some _ _ _ _ _ _ _ h
      by_cases hk4 : k < 4
      · rw [if_pos (by simp only [List.length_take]; omega)]
      · rw [if_neg (by simp only [List.length_take]; omega)]
        have hslice : ((B.take k).drop 2).take 2 = (B.drop 2).take 2 := by
          rw [List.drop_take, List.take_take]
          congr 1
          omega
        rw [hslice]
        exact decodeRest_take_none B _ _ _ _ _ (by omega) (by omega)
    · rw [if_neg h126] at h ⊢
      by_cases h127 : B.getD 1 0 &&& 127 = 127
      · rw [if_pos h127] at h ⊢
        have hB10 : ¬B.length < 10 := by
          intro hc
          rw [if_pos hc] at h
          exact absurd h (by simp)
        rw [if_neg hB10] at h
        obtain ⟨hc, hcle⟩ := decodeRest_eq_some _ _ _ _ _ _ _ h
        by_cases hk10 : k < 10
        · rw [if_pos (by simp only [List.length_take]; omega)]
        · rw [if_neg (by simp only [List.length_take]; omega)]
          have hslice : ((B.take k).drop 2).take 8 = (B.drop 2).take 8 := by
            rw [List.drop_take, List.take_take]
            congr 1
            omega
          rw [hslice]
          exact decodeRest_take_none B _ _ _ _ _ (by omega) (by omega)
      · rw [if_neg h127] at h ⊢
        obtain ⟨hc, hcle⟩ := decodeRest_eq_some _ _ _ _ _ _ _ h
        exact decodeRest_take_none B _ _ _ _ _ (by omega) (by omega)

/-- Decoding a well-formed frame (masked or not) followed by arbitrary
trailing bytes: combined form of the two previous lemmas. -/
theorem decodeFrame_frameBytes (b1 : Nat) (mo : Option (List Nat)) (p t : List Nat)
    (hm : ∀ m ∈ mo, m.length = 4) (hp : p.length < 2 ^ 64) :
    decodeFrame (frameBytes b1 mo p ++ t) =
      some (⟨b1 &&& 15, mo.isSome, p⟩, (frameBytes b1 mo p).length) := by
  cases mo with
  | none => simpa using decodeFrame_frameBytes_none b1 p t hp
  | some m => simpa using decodeFrame_frameBytes_some b1 m p t (hm m rfl) hp

/-- The fuel given to `processBufferFuel` is irrelevant once it is at least
the buffer length: each loop iteration consumes at least 2 bytes, so the
fuelled recursion is an exact model of the source's `while` loop. -/
theorem processBufferFuel_eq_of_le (n : Nat) : ∀ (m : Nat) (st : LoopState),
    st.buffer.length ≤ n → st.buffer.length ≤ m →
    processBufferFuel n st = processBufferFuel m st := by
  induction n with
  | zero =>
    intro m st hn hm
    have h0 : st.buffer.length < 2 := by omega
    cases m with
    | zero => rfl
    | succ m =>
      show st = processBufferFuel (m + 1) st
      rw [processBufferFuel, if_pos h0]
  | succ n ih =>
    intro m st hn hm
    by_cases h2 : st.buffer.length < 2
    · have e : ∀ f, processBufferFuel (f + 1) st = st := fun f => by
        rw [processBufferFuel, if_pos h2]
      cases m with
      | zero => rw [e n]; rfl
      | succ m => rw [e n, e m]
    · cases m with
      | zero => omega
      | succ m =>
        cases hdec : decodeFrame st.buffer with
        | none => simp only [processBufferFuel, if_neg h2, hdec]
        | some pr =>
          obtain ⟨fr, c⟩ := pr
          have hcb := decodeFrame_consumed _ _ _ hdec
          have hlen : (st.buffer.drop c).length ≤ n ∧ (st.buffer.drop c).length ≤ m := by
            simp only [List.length_drop]
            omega
          simp only [processBufferFuel, if_neg h2, hdec]
          by_cases ho1 : fr.opcode = 1
          · rw [if_pos ho1, if_pos ho1]
            exact ih m _ hlen.1 hlen.2
          · rw [if_neg ho1, if_neg ho1]
            by_cases ho8 : fr.opcode = 8
            · rw [if_pos ho8, if_pos ho8]
            · rw [if_neg ho8, if_neg ho8]
              by_cases ho9 : fr.opcode = 9
              · rw [if_pos ho9, if_pos ho9]
                exact ih m _ hlen.1 hlen.2
              · rw [if_neg ho9, if_neg ho9]
                exact ih m _ hlen.1 hlen.2

/-- If the buffer does not yet hold a complete frame, the inner loop leaves
the state untouched. -/
theorem processBuffer_of_none (st : LoopState) (h : decodeFrame st.buffer = none) :
    processBuffer st = st := by
  unfold processBuffer
  rcases hn : st.buffer.length with _ | l
  · rfl
  · rw [processBufferFuel]
    by_cases h2 : st.buffer.length < 2
    · rw [if_pos h2]
    · rw [if_neg h2, h]

/-- One iteration of the inner loop, expressed at the `processBuffer` level:
parse a frame, drop its bytes, dispatch on the opcode, continue on the rest
of the buffer. -/
theorem processBuffer_step (st : LoopState) (fr : DecodedFrame) (c : Nat)
    (hdec : decodeFrame st.buffer = some (fr, c)) :
    processBuffer st =
      if fr.opcode = 1 then
        processBuffer { st with buffer := st.buffer.drop c,
                                messages := st.messages ++ [fr.payload] }
      else if fr.opcode = 8 then
        { st with buffer := st.buffer.drop c, connected := false }
      else if fr.opcode = 9 then
        processBuffer { st with buffer := st.buffer.drop c,
                                sent := st.sent ++ [(10, fr.payload)] }
      else processBuffer { st with buffer := st.buffer.drop c } := by
  have hcb := decodeFrame_consumed _ _ _ hdec
  unfold processBuffer
  obtain ⟨l, hl⟩ : ∃ l, st.buffer.length = l + 1 := ⟨st.buffer.length - 1, by omega⟩
  rw [hl]
  have hlen : (st.buffer.drop c).length ≤ l := by
    simp only [List.length_drop]
    omega
  simp only [processBufferFuel, if_neg (show ¬st.buffer.length < 2 by omega), hdec]
  by_cases ho1 : fr.opcode = 1
  · rw [if_pos ho1, if_pos ho1]
    exact processBufferFuel_eq_of_le l _ _ hlen le_rfl
  · rw [if_neg ho1, if_neg ho1]
    by_cases ho8 : fr.opcode = 8
    · rw [if_pos ho8, if_pos ho8]
    · rw [if_neg ho8, if_neg ho8]
      by_cases ho9 : fr.opcode = 9
      · rw [if_pos ho9, if_pos ho9]
        exact processBufferFuel_eq_of_le l _ _ hlen le_rfl
      · rw [if_neg ho9, if_neg ho9]
        exact processBufferFuel_eq_of_le l _ _ hlen le_rfl

/-! ## Claim theorems -/

/-- C1: Round-trip through the frame codec — for every payload (the UTF-8
bytes of a string, in any of the four length classes 0, 1–125, 126–65535,
>65535), decoding the bytes produced by `_send_frame` (a masked frame, any
4-bit opcode, in particular text `0x1`) yields the original payload,
unmasked, and consumes exactly the full encoded length. -/
theorem send_frame_roundtrip (opcode : Nat) (data mask : List Nat)
    (hop : opcode < 16) (hm : mask.length = 4) (hd : data.length < 2 ^ 64) :
    decodeFrame (send_frame data opcode mask) =
      some (⟨opcode, true, data⟩, (send_frame data opcode mask).length) := by
  rw [send_frame_eq_frameBytes]
  have h := decodeFrame_frameBytes_some (128 ||| opcode) mask data [] hm hd
  simpa [or128_and15 opcode hop] using h

/-- Witness for C1 at all four length classes: payload lengths 0, 3, 200 and
70000, text opcode, mask `[1,2,3,4]`. -/
theorem send_frame_roundtrip_witness :
    decodeFrame (send_frame [] 1 [1, 2, 3, 4]) =
      some (⟨1, true, []⟩, (send_frame [] 1 [1, 2, 3, 4]).length) ∧
    decodeFrame (send_frame [97, 98, 99] 1 [1, 2, 3, 4]) =
      some (⟨1, true, [97, 98, 99]⟩, (send_frame [97, 98, 99] 1 [1, 2, 3, 4]).length) ∧
    decodeFrame (send_frame (List.replicate 200 65) 1 [1, 2, 3, 4]) =
      some (⟨1, true, List.replicate 200 65⟩,
        (send_frame (List.replicate 200 65) 1 [1, 2, 3, 4]).length) ∧
    decodeFrame (send_frame (List.replicate 70000 66) 1 [1, 2, 3, 4]) =
      some (⟨1, true, List.replicate 70000 66⟩,
        (send_frame (List.replicate 70000 66) 1 [1, 2, 3, 4]).length) :=
  ⟨send_frame_roundtrip 1 [] [1, 2, 3, 4] (by decide) (by decide) (by decide),
   send_frame_roundtrip 1 [97, 98, 99] [1, 2, 3, 4] (by decide) (by decide) (by decide),
   send_frame_roundtrip 1 (List.replicate 200 65) [1, 2, 3, 4] (by decide) (by decide)
     (by rw [List.length_replicate]; norm_num),
   send_frame_roundtrip 1 (List.replicate 70000 66) [1, 2, 3, 4] (by decide) (by decide)
     (by rw [List.length_replicate]; norm_num)⟩

/-- C10: the receive-path parser inspects the mask bit of every incoming
frame and handles both cases — a masked frame's payload is recovered by
XORing against the 4-byte key read from the buffer (`frameBytes` lays down
`maskPayload m p`, and the parse returns `p`), and an unmasked frame's
payload is delivered verbatim. -/
theorem decode_handles_mask_bit (b1 : Nat) (m p : List Nat)
    (hm : m.length = 4) (hp : p.length < 2 ^ 64) :
    decodeFrame (frameBytes b1 (some m) p) =
      some (⟨b1 &&& 15, true, p⟩, (frameBytes b1 (some m) p).length) ∧
    decodeFrame (frameBytes b1 none p) =
      some (⟨b1 &&& 15, false, p⟩, (frameBytes b1 none p).length) := by
  constructor
  · simpa using decodeFrame_frameBytes_some b1 m p [] hm hp
  · simpa using decodeFrame_frameBytes_none b1 p [] hp

/-- Witness for C10: text frame `0x81`, mask `[5,6,7,8]`, payload
`[1,2,3]`. -/
theorem decode_handles_mask_bit_witness :
    decodeFrame (frameBytes 129 (some [5, 6, 7, 8]) [1, 2, 3]) =
      some (⟨129 &&& 15, true, [1, 2, 3]⟩,
        (frameBytes 129 (some [5, 6, 7, 8]) [1, 2, 3]).length) ∧
    decodeFrame (frameBytes 129 none [1, 2, 3]) =
      some (⟨129 &&& 15, false, [1, 2, 3]⟩, (frameBytes 129 none [1, 2, 3]).length) :=
  decode_handles_mask_bit 129 [5, 6, 7, 8] [1, 2, 3] (by decide) (by decide)

/-- C2: Partial-buffer safety of the parse step — for every valid encoded
frame, every strict prefix makes the parse report `NeedMoreData` (consuming
nothing), the full bytes decode successfully consuming exactly the frame,
and the full bytes followed by a strict prefix of a next frame decode
exactly one frame, leaving the trailing bytes untouched (they are the
dropped remainder, and themselves parse to `NeedMoreData`). -/
theorem decode_partial_buffer (b1 b1' : Nat) (mo mo' : Option (List Nat))
    (p p' : List Nat)
    (hm : ∀ m ∈ mo, m.length = 4) (hp : p.length < 2 ^ 64)
    (hm' : ∀ m ∈ mo', m.length = 4) (hp' : p'.length < 2 ^ 64)
    (k j : Nat) (hk : k < (frameBytes b1 mo p).length)
    (hj : j < (frameBytes b1' mo' p').length) :
    decodeFrame ((frameBytes b1 mo p).take k) = none ∧
    decodeFrame (frameBytes b1 mo p) =
      some (⟨b1 &&& 15, mo.isSome, p⟩, (frameBytes b1 mo p).length) ∧
    decodeFrame (frameBytes b1 mo p ++ (frameBytes b1' mo' p').take j) =
      some (⟨b1 &&& 15, mo.isSome, p⟩, (frameBytes b1 mo p).length) ∧
    (frameBytes b1 mo p ++ (frameBytes b1' mo' p').take j).drop
        (frameBytes b1 mo p).length = (frameBytes b1' mo' p').take j ∧
    decodeFrame ((frameBytes b1' mo' p').take j) = none := by
  have hfull : decodeFrame (frameBytes b1 mo p) =
      some (⟨b1 &&& 15, mo.isSome, p⟩, (frameBytes b1 mo p).length) := by
    simpa using decodeFrame_frameBytes b1 mo p [] hm hp
  have hfull' : decodeFrame (frameBytes b1' mo' p') =
      some (⟨b1' &&& 15, mo'.isSome, p'⟩, (frameBytes b1' mo' p').length) := by
    simpa using decodeFrame_frameBytes b1' mo' p' [] hm' hp'
  exact ⟨decodeFrame_take_none _ _ _ k hfull hk, hfull,
    decodeFrame_frameBytes b1 mo p _ hm hp, List.drop_left _ _,
    decodeFrame_take_none _ _ _ j hfull' hj⟩

/-- Witness for C2: a masked 3-byte text frame cut at every strict prefix
length 3, full decode, and a trailing 2-byte prefix of an unmasked next
frame. -/
theorem decode_partial_buffer_witness :
    decodeFrame ((frameBytes 129 (some [1, 2, 3, 4]) [97, 98, 99]).take 3) = none ∧
    decodeFrame (frameBytes 129 (some [1, 2, 3, 4]) [97, 98, 99]) =
      some (⟨129 &&& 15, (some [1, 2, 3, 4]).isSome, [97, 98, 99]⟩,
        (frameBytes 129 (some [1, 2, 3, 4]) [97, 98, 99]).length) ∧
    decodeFrame (frameBytes 129 (some [1, 2, 3, 4]) [97, 98, 99] ++
        (frameBytes 129 none [104, 105]).take 2) =
      some (⟨129 &&& 15, (some [1, 2, 3, 4]).isSome, [97, 98, 99]⟩,
        (frameBytes 129 (some [1, 2, 3, 4]) [97, 98, 99]).length) ∧
    (frameBytes 129 (some [1, 2, 3, 4]) [97, 98, 99] ++
        (frameBytes 129 none [104, 105]).take 2).drop
        (frameBytes 129 (some [1, 2, 3, 4]) [97, 98, 99]).length =
      (frameBytes 129 none [104, 105]).take 2 ∧
    decodeFrame ((frameBytes 129 none [104, 105]).take 2) = none :=
  decode_partial_buffer 129 129 (some [1, 2, 3, 4]) none [97, 98, 99] [104, 105]
    (by decide) (by decide) (by decide) (by decide) 3 2 (by decide) (by decide)

/-- C3: Close-frame handling — when the inner loop decodes a frame whose
opcode nibble is `0x8` while the connection is open, the connected flag
becomes false and the loop stops: no message callback or pong is produced,
and any bytes after the close frame (including complete frames) are left
unprocessed; a further outer-loop iteration with the connection closed does
nothing. -/
theorem close_frame_stops (b1 : Nat) (mo : Option (List Nat)) (p : List Nat)
    (hm : ∀ m ∈ mo, m.length = 4) (hp : p.length < 2 ^ 64) (hop : b1 &&& 15 = 8)
    (rest chunk : List Nat) (msgs : List (List Nat)) (sent : List (Nat × List Nat)) :
    processBuffer ⟨true, frameBytes b1 mo p ++ rest, msgs, sent⟩ =
      ⟨false, rest, msgs, sent⟩ ∧
    loopStep ⟨false, rest, msgs, sent⟩ chunk = ⟨false, rest, msgs, sent⟩ := by
  constructor
  · have hdec := decodeFrame_frameBytes b1 mo p rest hm hp
    rw [processBuffer_step _ _ _ hdec]
    simp [hop, List.drop_left]
  · simp [loopStep]

/-- Witness for C3: unmasked close frame `0x88` with empty payload, followed
by a complete unmasked text frame that must not be processed, then a further
chunk that must be ignored. -/
theorem close_frame_stops_witness :
    processBuffer ⟨true, frameBytes 136 none [] ++ (frameBytes 129 none [104, 105]),
        [], []⟩ = ⟨false, frameBytes 129 none [104, 105], [], []⟩ ∧
    loopStep ⟨false, frameBytes 129 none [104, 105], [], []⟩ [129, 1, 33] =
      ⟨false, frameBytes 129 none [104, 105], [], []⟩ :=
  close_frame_stops 136 none [] (by decide) (by decide) (by decide)
    (frameBytes 129 none [104, 105]) [129, 1, 33] [] []

/-- C4: Ping handling — a decoded frame whose opcode nibble is `0x9` with
payload `p` makes the loop hand exactly one `(0xA, p)` pong to `_send_frame`
and invoke no message callback; the connection stays open. -/
theorem ping_frame_pong (b1 : Nat) (mo : Option (List Nat)) (p : List Nat)
    (hm : ∀ m ∈ mo, m.length = 4) (hp : p.length < 2 ^ 64) (hop : b1 &&& 15 = 9)
    (msgs : List (List Nat)) (sent : List (Nat × List Nat)) :
    processBuffer ⟨true, frameBytes b1 mo p, msgs, sent⟩ =
      ⟨true, [], msgs, sent ++ [(10, p)]⟩ := by
  have hdec : decodeFrame (frameBytes b1 mo p) =
      some (⟨b1 &&& 15, mo.isSome, p⟩, (frameBytes b1 mo p).length) := by
    simpa using decodeFrame_frameBytes b1 mo p [] hm hp
  rw [processBuffer_step _ _ _ hdec]
  simp only [hop, Nat.reduceEqDiff, if_false, if_true, List.drop_length]
  exact processBuffer_of_none _ rfl

/-- Witness for C4: unmasked ping `0x89` with payload `"abc"` =
`[97, 98, 99]`. -/
theorem ping_frame_pong_witness :
    processBuffer ⟨true, frameBytes 137 none [97, 98, 99], [], []⟩ =
      ⟨true, [], [], [] ++ [(10, [97, 98, 99])]⟩ :=
  ping_frame_pong 137 none [97, 98, 99] (by decide) (by decide) (by decide) [] []

/-- C5 counterexample: the claim says `connect()` inspects the *status line*
for 101 and fails on every response whose status line carries another
status.  The source instead runs `'101' in response_str` over the whole
response: this response's status line is `HTTP/1.1 404 Not Found`, yet
because a header contains the substring `101` the check passes and the
connected flag is set. -/
theorem handshake_status_line_counterexample :
    ("HTTP/1.1 404 Not Found\r\nETag: 101\r\n\r\n").toList.takeWhile
        (fun c => c ≠ '\r') = ("HTTP/1.1 404 Not Found").toList ∧
    connectCheck ("HTTP/1.1 404 Not Found\r\nETag: 101\r\n\r\n").toList =
      (ConnectResult.ok, true) := by
  constructor
  · rfl
  · rfl

/-- C5 (amended): `connect()` fails with `HandshakeFailed` (carrying the
first 200 characters of the decoded response) and leaves the connected flag
false exactly when the substring `101` occurs nowhere in the whole decoded
response — in particular on `HTTP/1.1 404 Not Found\r\n\r\n`.  The check is
a substring search over the entire response, not a status-line
inspection. -/
theorem connect_fails_without_101 (r : List Char)
    (h : containsSeq ['1', '0', '1'] r = false) :
    connectCheck r = (ConnectResult.handshakeFailed (r.take 200), false) := by
  simp [connectCheck, h]

/-- Witness for the amended C5: the spec's own example response. -/
theorem connect_fails_without_101_witness :
    connectCheck ("HTTP/1.1 404 Not Found\r\n\r\n").toList =
      (ConnectResult.handshakeFailed
        (("HTTP/1.1 404 Not Found\r\n\r\n").toList.take 200), false) :=
  connect_fails_without_101 ("HTTP/1.1 404 Not Found\r\n\r\n").toList (by rfl)

/-- C6 (code bug): for a handshake read whose single chunk is the `101`
response followed immediately by a complete frame, the read loop returns the
whole chunk (so the trailing frame bytes sit only in `connect()`'s local
`response` variable), the bytes after the `\r\n\r\n` terminator are the
frame bytes `[129, 3, 97, 98, 99]` and are nonempty, the substring check
passes (the response contains `101`), and yet `_receive_loop` starts from
`buffer = b''` — the trailing bytes are discarded instead of being handed to
the receive buffer as the spec requires. -/
theorem post_handshake_bytes_discarded :
    readHandshakeResponse []
        [asciiBytes "HTTP/1.1 101 Switching Protocols\r\n\r\n" ++ [129, 3, 97, 98, 99]] =
      some (asciiBytes "HTTP/1.1 101 Switching Protocols\r\n\r\n" ++ [129, 3, 97, 98, 99]) ∧
    bytesAfterHeaderTerminator
        (asciiBytes "HTTP/1.1 101 Switching Protocols\r\n\r\n" ++ [129, 3, 97, 98, 99]) =
      [129, 3, 97, 98, 99] ∧
    containsSeq [49, 48, 49]
        (asciiBytes "HTTP/1.1 101 Switching Protocols\r\n\r\n" ++ [129, 3, 97, 98, 99]) = true ∧
    receiveLoopInitBuffer = [] := by
  refine ⟨?_, ?_, ?_, ?_⟩ <;> rfl

/-- C7 counterexample: the claim says a text frame with the FIN bit clear is
*not* surfaced.  The parse never reads the FIN bit (`opcode = first_byte &
0x0F` is all it extracts), so the frame `[0x01, 0x01, 0x61]` — FIN clear,
opcode text, unmasked payload `"a"` — is surfaced to the message callback
immediately. -/
theorem text_fin_clear_surfaced_counterexample :
    1 &&& 128 = 0 ∧
    processBuffer ⟨true, [1, 1, 97], [], []⟩ = ⟨true, [], [[97]], []⟩ := by
  constructor
  · rfl
  · rfl

/-- C7 (amended): every decoded frame whose opcode nibble is text `0x1` has
its payload surfaced to the message callback immediately, regardless of the
FIN bit of its first byte (`b1` ranges over both FIN-set and FIN-clear
bytes); no fragment buffering is performed. -/
theorem text_frame_surfaced (b1 : Nat) (mo : Option (List Nat)) (p : List Nat)
    (hm : ∀ m ∈ mo, m.length = 4) (hp : p.length < 2 ^ 64) (hop : b1 &&& 15 = 1)
    (msgs : List (List Nat)) (sent : List (Nat × List Nat)) :
    processBuffer ⟨true, frameBytes b1 mo p, msgs, sent⟩ =
      ⟨true, [], msgs ++ [p], sent⟩ := by
  have hdec : decodeFrame (frameBytes b1 mo p) =
      some (⟨b1 &&& 15, mo.isSome, p⟩, (frameBytes b1 mo p).length) := by
    simpa using decodeFrame_frameBytes b1 mo p [] hm hp
  rw [processBuffer_step _ _ _ hdec]
  simp only [hop, Nat.reduceEqDiff, if_false, if_true, List.drop_length]
  exact processBuffer_of_none _ rfl

/-- Witness for the amended C7: FIN-clear text frame `b1 = 0x01`, unmasked
payload `"hi"`. -/
theorem text_frame_surfaced_witness :
    processBuffer ⟨true, frameBytes 1 none [104, 105], [], []⟩ =
      ⟨true, [], [] ++ [[104, 105]], []⟩ :=
  text_frame_surfaced 1 none [104, 105] (by decide) (by decide) (by decide) [] []

/-- C8 counterexample: the claim says a frame with an unparseable opcode
makes the loop close the connection and stop.  Every 4-bit opcode parses;
here a frame with opcode `0x3` (outside the handled set `{0x1, 0x8, 0x9}`
and not pong `0xA`) is silently consumed, the connection stays open, and the
following text frame is still processed and surfaced. -/
theorem unknown_opcode_continues_counterexample :
    (131 &&& 15 ≠ 1 ∧ 131 &&& 15 ≠ 8 ∧ 131 &&& 15 ≠ 9 ∧ 131 &&& 15 ≠ 10) ∧
    processBuffer ⟨true, [131, 1, 120, 129, 2, 104, 105], [], []⟩ =
      ⟨true, [], [[104, 105]], []⟩ := by
  constructor
  · exact ⟨by decide, by decide, by decide, by decide⟩
  · rfl

/-- C8 (amended): a decoded frame whose opcode nibble is outside the handled
set `{0x1, 0x8, 0x9}` is consumed and ignored — the connection is not
closed, no callback or reply is produced, and the loop continues processing
the remaining buffered bytes exactly as if the frame had not been there. -/
theorem unknown_opcode_skipped (b1 : Nat) (mo : Option (List Nat)) (p : List Nat)
    (hm : ∀ m ∈ mo, m.length = 4) (hp : p.length < 2 ^ 64)
    (h1 : b1 &&& 15 ≠ 1) (h8 : b1 &&& 15 ≠ 8) (h9 : b1 &&& 15 ≠ 9)
    (rest : List Nat) (msgs : List (List Nat)) (sent : List (Nat × List Nat)) :
    processBuffer ⟨true, frameBytes b1 mo p ++ rest, msgs, sent⟩ =
      processBuffer ⟨true, rest, msgs, sent⟩ := by
  have hdec := decodeFrame_frameBytes b1 mo p rest hm hp
  rw [processBuffer_step _ _ _ hdec]
  rw [if_neg (by simpa using h1), if_neg (by simpa using h8), if_neg (by simpa using h9)]
  simp [List.drop_left]

/-- Witness for the amended C8: masked binary frame (opcode `0x2`) followed
by a complete text frame. -/
theorem unknown_opcode_skipped_witness :
    processBuffer ⟨true, frameBytes 130 (some [1, 2, 3, 4]) [7] ++
        (frameBytes 129 none [104, 105]), [], []⟩ =
      processBuffer ⟨true, frameBytes 129 none [104, 105], [], []⟩ :=
  unknown_opcode_skipped 130 (some [1, 2, 3, 4]) [7] (by decide) (by decide)
    (by decide) (by decide) (by decide) (frameBytes 129 none [104, 105]) [] []

end Chessmata
